import Mathlib

/-!
Verification of the export caching and reconciliation engine of a photo
library tool (`darktable.py`, `util.py`, `args_hash.py`).

Shallow embedding conventions:
* Python strings are lists of characters (`Str`).
* The pickle-backed `simple_cache` store is an association list from full
  keys to values.  Expiry stamps are omitted: every write in this code base
  uses `sys.maxsize`, so entries never expire.
* The file system is a finite map from paths to content hashes; presence of
  a binding models existence of a regular file.
* The external `darktable-cli` renderer is an oracle
  `Photo → Str → Option Str` returning the output path parsed from its
  stdout (`none` models unparseable output).
-/

namespace Darktable

/-- Python `str` values, embedded as lists of characters. -/
abbrev Str := List Char

/-- The physical key-value store (the pickled dictionary), as an
association list from full (prefixed) keys to values. -/
abbrev Store := List (Str × Str)

/-- Dictionary lookup: the first binding of the key, if any. -/
def storeLookup (k : Str) (s : Store) : Option Str :=
  (s.find? (fun e => decide (e.1 = k))).map (fun e => e.2)

namespace Cache

/-- `Cache.save`: `cache[prefix + key] = (maxsize, value)`.  Dictionary
assignment: an existing binding is overwritten in place, otherwise the new
binding is appended. -/
def save (pfx k v : Str) (s : Store) : Store :=
  if s.any (fun e => decide (e.1 = pfx ++ k)) then
    s.map (fun e => if e.1 = pfx ++ k then (pfx ++ k, v) else e)
  else s ++ [(pfx ++ k, v)]

/-- `Cache.load`: value stored under `prefix + key`, if present. -/
def load (pfx k : Str) (s : Store) : Option Str :=
  storeLookup (pfx ++ k) s

/-- `Cache.delete`: remove the binding of `prefix + key`, if present. -/
def delete (pfx k : Str) (s : Store) : Store :=
  s.filter (fun e => !decide (e.1 = pfx ++ k))

/-- `Cache.prune`: remove every binding whose key starts with the prefix. -/
def prune (pfx : Str) (s : Store) : Store :=
  s.filter (fun e => !pfx.isPrefixOf e.1)

/-- `Cache.update`: dictionary assignment of every pair of the mapping. -/
def update (pfx : Str) (d : List (Str × Str)) (s : Store) : Store :=
  d.foldl (fun acc kv => save pfx kv.1 kv.2 acc) s

/-- `Cache.replace`: `prune` followed by `update`. -/
def replace (pfx : Str) (d : List (Str × Str)) (s : Store) : Store :=
  update pfx d (prune pfx s)

/-- `Cache.items(has_value=...)`: the entries whose key starts with the
prefix (stripped of it) and, when a filter value is given, whose value
equals it. -/
def items (pfx : Str) (hasValue : Option Str) (s : Store) : List (Str × Str) :=
  (s.filter (fun e =>
      pfx.isPrefixOf e.1 &&
        (match hasValue with
         | none => true
         | some v => decide (e.2 = v)))).map
    (fun e => (e.1.drop pfx.length, e.2))

/-- `Cache.keys(has_value=...)`: first components of `items`. -/
def keys (pfx : Str) (hasValue : Option Str) (s : Store) : List Str :=
  (items pfx hasValue s).map (fun e => e.1)

end Cache

/-! ### POSIX path helpers (`os.path` on the strings the program uses) -/

/-- `os.path.basename`: the part after the last slash. -/
def basename (p : Str) : Str :=
  (p.reverse.takeWhile (fun c => decide (c ≠ '/'))).reverse

/-- `os.path.dirname`: the part before the last slash, with trailing
slashes stripped unless the result consists solely of slashes. -/
def dirname (p : Str) : Str :=
  if p.contains '/' then
    let head := p.take (p.length - (basename p).length)
    if head.all (fun c => decide (c = '/')) then head
    else (head.reverse.dropWhile (fun c => decide (c = '/'))).reverse
  else []

/-- `os.path.join` for two components (POSIX rules). -/
def pathJoin (a b : Str) : Str :=
  if b.head? = some '/' then b
  else if a = [] ∨ a.getLast? = some '/' then a ++ b
  else a ++ '/' :: b

/-- `os.path.splitext`: split off the extension at the last dot of the
basename, provided a non-dot character of the basename precedes it. -/
def splitext (p : Str) : Str × Str :=
  let base := basename p
  let stripped := base.dropWhile (fun c => decide (c = '.'))
  if stripped.contains '.' then
    let extLen := (stripped.reverse.takeWhile (fun c => decide (c ≠ '.'))).length + 1
    (p.take (p.length - extLen), p.drop (p.length - extLen))
  else (p, [])

/-! ### `is_raw_photo_ext` -/

/-- The raw image file extensions listed in the source (the literal set,
before `'tif'` is removed from it). -/
def rawPhotoExts : List Str :=
  (["3fr", "ari", "arw", "bay", "braw", "crw", "cr2", "cr3",
    "cap", "data", "dcs", "dcr", "dng", "drf", "eip", "erf",
    "fff", "gpr", "iiq", "k25", "kdc", "mdc", "mef", "mos",
    "mrw", "nef", "nrw", "obm", "orf", "pef", "ptx", "pxn",
    "r3d", "raf", "raw", "rwl", "rw2", "rwz", "sr2", "srf",
    "srw", "tif", "x3f"]).map String.toList

/-- The whitespace characters stripped by Python's `str.strip()` (ASCII). -/
def isPyWhitespace (c : Char) : Bool :=
  c == ' ' || c == '\t' || c == '\n' || c == '\r' || c == '\x0b' || c == '\x0c'

/-- Python `str.strip()`. -/
def pyStrip (s : Str) : Str :=
  ((s.dropWhile isPyWhitespace).reverse.dropWhile isPyWhitespace).reverse

/-- Python `str.lower()` (the extensions compared are ASCII). -/
def pyLower (s : Str) : Str := s.map Char.toLower

/-- `is_raw_photo_ext`: strip whitespace, strip leading dots, lowercase,
then test membership in the raw-extension set minus `'tif'`. -/
def is_raw_photo_ext (ext : Str) : Bool :=
  (rawPhotoExts.filter (fun e => decide (e ≠ "tif".toList))).contains
    (pyLower ((pyStrip ext).dropWhile (fun c => decide (c = '.'))))

/-! ### Photos -/

/-- The fields of `Photo` that the export engine reads (source path and
edit version; the remaining catalog fields do not influence caching). -/
structure Photo where
  filepath : Str
  version : Nat
deriving DecidableEq

/-- `f'{version:02}'`: decimal, zero-padded to two digits. -/
def twoDigitRepr (n : Nat) : Str :=
  let s := (Nat.repr n).toList
  if s.length < 2 then '0' :: s else s

/-- `Photo.xmp_path`: sidecar path derived from the source path, with a
`_NN` version suffix for versions above zero. -/
def Photo.xmp_path (ph : Photo) : Str :=
  let filename := basename ph.filepath
  let se := splitext filename
  let fn := if ph.version > 0 then se.1 ++ '_' :: twoDigitRepr ph.version else se.1
  pathJoin (dirname ph.filepath) (fn ++ se.2 ++ '.' :: "xmp".toList)

/-! ### File system -/

/-- The file system visible to the engine: existing regular files mapped
to their content hash. -/
structure FS where
  files : List (Str × Str)
deriving DecidableEq

/-- Content hash of the file at a path, if the file exists. -/
def FS.lookup (fs : FS) (p : Str) : Option Str := storeLookup p fs.files

/-- `os.path.exists`. -/
def FS.pathExists (fs : FS) (p : Str) : Bool := (fs.lookup p).isSome

/-- `os.remove` (all bindings of the path disappear). -/
def FS.remove (fs : FS) (p : Str) : FS :=
  ⟨fs.files.filter (fun e => !decide (e.1 = p))⟩

/-- Creation (or overwrite) of a file with a given content hash. -/
def FS.create (fs : FS) (p h : Str) : FS :=
  ⟨fs.files.filter (fun e => !decide (e.1 = p)) ++ [(p, h)]⟩

/-- `filehash` of `util.py`: content hash of the file; `none` models the
`FileNotFoundError` raised by `open` when the file is absent. -/
def filehash (fs : FS) (p : Str) : Option Str := fs.lookup p

/-! ### The exporter -/

/-- The immutable identity of a constructed `Exporter`: its cache key and
its configuration fingerprint (`self.args_hash`). -/
structure Exporter where
  cache_key : Str
  args_hash : Str
deriving DecidableEq

/-- Key prefix of the `main` namespace: `f'{cache_key}:main:'`. -/
def mainPfx (E : Exporter) : Str := E.cache_key ++ ":main:".toList

/-- Key prefix of the `xmp` namespace: `f'{cache_key}:xmp:'`. -/
def xmpPfx (E : Exporter) : Str := E.cache_key ++ ":xmp:".toList

/-- Key prefix of the `export` namespace: `f'{cache_key}:export:'`. -/
def exportPfx (E : Exporter) : Str := E.cache_key ++ ":export:".toList

/-- The mutable state of an exporter: the shared persistent store and the
in-memory session set `self._sess_exported`. -/
structure ExpState where
  store : Store
  sess : List Str
deriving DecidableEq

/-- `set.add`: insert a path into the session set. -/
def sessAdd (s : List Str) (p : Str) : List Str :=
  if p ∈ s then s else p :: s

/-- The key under which the `main` namespace stores the fingerprint. -/
def argsHashKey : Str := "args_hash".toList

/-- `Exporter.__init__` (the cache-relevant tail): if the current
fingerprint differs from the stored one, prune the `export` namespace and
then the `xmp` namespace; in any case save the current fingerprint and
start with an empty session set. -/
def Exporter.init (E : Exporter) (store : Store) : ExpState :=
  let store1 :=
    if some E.args_hash ≠ Cache.load (mainPfx E) argsHashKey store then
      Cache.prune (xmpPfx E) (Cache.prune (exportPfx E) store)
    else store
  ⟨Cache.save (mainPfx E) argsHashKey E.args_hash store1, []⟩

/-- Per-photo failures of the export path: `MissingSidecarError` (the
`FileNotFoundError` of `filehash`) and `RenderOutputUndeterminedError`
(the `RuntimeError` raised when the renderer's stdout contains no
`exported to` path). -/
inductive ExportError
  | missingSidecar
  | renderOutputUndetermined
deriving DecidableEq

/-- The renderer oracle: output path parsed from `darktable-cli` stdout,
or `none` when no path can be parsed. -/
abbrev Renderer := Photo → Str → Option Str

instance : DecidableEq (Except ExportError Str) := fun a b =>
  match a, b with
  | Except.ok x, Except.ok y => decidable_of_iff (x = y) (by simp)
  | Except.error x, Except.error y => decidable_of_iff (x = y) (by simp)
  | Except.ok _, Except.error _ => isFalse (by simp)
  | Except.error _, Except.ok _ => isFalse (by simp)

/-- Result of an export operation: new exporter state, new file system,
outcome, and the number of renderer invocations performed. -/
structure ECResult where
  st : ExpState
  fs : FS
  result : Except ExportError Str
  renders : Nat
deriving DecidableEq

/-- `photo`'s cache key: `f'{photo.filepath}:{photo.version}'`. -/
def photoCacheKey (photo : Photo) : Str :=
  photo.filepath ++ ':' :: (Nat.repr photo.version).toList

/-- `Exporter.export`: run the renderer once; if its output contains no
parseable path, fail (session set and store untouched); otherwise record
the produced path in the session set and on the file system.  Metadata
rewriting of the produced file is external and does not affect state
observed here. -/
def Exporter.exportPhoto (E : Exporter) (render : Renderer) (photo : Photo)
    (outDir : Str) (st : ExpState) (fs : FS) : ECResult :=
  match render photo outDir with
  | none => ⟨st, fs, Except.error ExportError.renderOutputUndetermined, 1⟩
  | some p => ⟨⟨st.store, sessAdd st.sess p⟩, fs.create p [], Except.ok p, 1⟩

/-- `Exporter.export_cached`: compute the sidecar hash (failing when the
sidecar is absent); load the cached output path; when it is present and
the file exists, record it in the session set and, when the stored sidecar
hash also matches, return it without rendering; otherwise render and save
the sidecar hash and the new output path. -/
def Exporter.export_cached (E : Exporter) (render : Renderer) (photo : Photo)
    (outDir : Str) (st : ExpState) (fs : FS) : ECResult :=
  let key := photoCacheKey photo
  match filehash fs photo.xmp_path with
  | none => ⟨st, fs, Except.error ExportError.missingSidecar, 0⟩
  | some xmpHash =>
      let cached := Cache.load (exportPfx E) key st.store
      let st1 : ExpState :=
        match cached with
        | some p => if fs.pathExists p then ⟨st.store, sessAdd st.sess p⟩ else st
        | none => st
      let hit : Option Str :=
        match cached with
        | some p =>
            if fs.pathExists p ∧ some xmpHash = Cache.load (xmpPfx E) key st.store then
              some p
            else none
        | none => none
      match hit with
      | some p => ⟨st1, fs, Except.ok p, 0⟩
      | none =>
          let r := E.exportPhoto render photo outDir st1 fs
          match r.result with
          | Except.error e => ⟨r.st, r.fs, Except.error e, r.renders⟩
          | Except.ok newPath =>
              ⟨⟨Cache.save (exportPfx E) key newPath
                  (Cache.save (xmpPfx E) key xmpHash r.st.store),
                r.st.sess⟩,
               r.fs, Except.ok newPath, r.renders⟩

/-! ### Reconciliation (`sync`) -/

/-- Whether a file path lies below a directory (what `glob('**/*')` under
the directory yields). -/
def underDir (dir p : Str) : Bool := (dir ++ ['/']).isPrefixOf p

/-- One iteration of `sync`'s inner loop: delete the `export` entry of a
cache key followed by the `xmp` entry of the same key. -/
def delStep (E : Exporter) (s : Store) (k : Str) : Store :=
  Cache.delete (xmpPfx E) k (Cache.delete (exportPfx E) k s)

/-- The body of `sync`'s loop for one file path: skip files in the session
set and files with a raw-photo extension; otherwise delete every `export`
entry whose value is this path together with the `xmp` entry of the same
key, then remove the file. -/
def syncStep (E : Exporter) (sess : List Str) (acc : Store × FS) (p : Str) :
    Store × FS :=
  if p ∈ sess then acc
  else if is_raw_photo_ext (splitext p).2 then acc
  else
    ((Cache.keys (exportPfx E) (some p) acc.1).foldl (delStep E) acc.1,
     acc.2.remove p)

/-- The walk of `sync` over the files below the directory. -/
def syncFold (E : Exporter) (sess : List Str) (files : List Str)
    (acc : Store × FS) : Store × FS :=
  files.foldl (syncStep E sess) acc

/-- `Exporter.sync`: walk the regular files below the directory, apply
`syncStep` to each, then clear the session set. -/
def Exporter.sync (E : Exporter) (dir : Str) (st : ExpState) (fs : FS) :
    ExpState × FS :=
  let r := syncFold E st.sess ((fs.files.map (fun e => e.1)).filter (underDir dir))
    (st.store, fs)
  (⟨r.1, []⟩, r.2)

/-! ### `args_hash` (the configuration fingerprint) -/

/-- `'__NoneType__' if _i is None else _i`. -/
def noneToStr (s : Option String) : String :=
  match s with
  | none => "__NoneType__"
  | some s => s

/-- Value comparison used only when keys tie.  (For dictionary inputs keys
are distinct, so this comparison — which would raise for `None` against a
string in Python — is never consulted; it is totalised here.) -/
def optValLe (a b : Option String) : Bool :=
  match a, b with
  | none, _ => true
  | some _, none => false
  | some x, some y => decide (x ≤ y)

/-- Python's tuple comparison on `(key, value)` pairs, as used by
`sorted(kw.items())`: keys first, values on equal keys. -/
def kwLe (a b : String × Option String) : Bool :=
  if a.1 = b.1 then optValLe a.2 b.2
  else decide (a.1 < b.1)

/-- The serialization hashed by `args_hash`: positional items, then the
keyword pairs sorted by key and flattened, `None` replaced by the sentinel,
all joined with `'|'`. -/
def argsJoined (args : List (Option String)) (kw : List (String × Option String)) :
    String :=
  let items := args ++ ((kw.mergeSort kwLe).map (fun t => [some t.1, t.2])).flatten
  String.intercalate "|" (items.map noneToStr)

/-- `args_hash`, parameterized by the digest function applied to the
serialized string (SHA-1 in the source; any function of the serialization
is deterministic in it). -/
def args_hash (h : String → String) (args : List (Option String))
    (kw : List (String × Option String)) : String :=
  h (argsJoined args kw)

/-! ## Helper lemmas -/

theorem storeLookup_nil (k : Str) : storeLookup k [] = none := rfl

theorem storeLookup_cons (e : Str × Str) (t : Store) (k : Str) :
    storeLookup k (e :: t) = if e.1 = k then some e.2 else storeLookup k t := by
  by_cases h : e.1 = k <;> simp [storeLookup, List.find?, h]

theorem storeLookup_eq_none_iff {k : Str} {s : Store} :
    storeLookup k s = none ↔ ∀ e ∈ s, e.1 ≠ k := by
  induction s with
  | nil => simp [storeLookup_nil]
  | cons e t ih =>
      rw [storeLookup_cons]
      by_cases h : e.1 = k <;> simp [h, ih]

theorem storeLookup_isSome_of_mem {k v : Str} {s : Store} (h : (k, v) ∈ s) :
    storeLookup k s ≠ none := by
  intro hn
  exact (storeLookup_eq_none_iff.1 hn (k, v) h) rfl

/-- Two lists that are both prefixes of a third are comparable. -/
theorem pfxComparable {α : Type} {l₁ l₂ l₃ : List α} (h₁ : l₁ <+: l₃)
    (h₂ : l₂ <+: l₃) : l₁ <+: l₂ ∨ l₂ <+: l₁ :=
  List.prefix_or_prefix_of_prefix h₁ h₂

/-- If neither of two strings is a prefix of the other, the first is a
prefix of no extension of the second. -/
theorem notPfxCross {p q : Str} (h1 : ¬ p <+: q) (h2 : ¬ q <+: p) (t : Str) :
    ¬ p <+: (q ++ t) := by
  intro h
  rcases pfxComparable h ((q.prefix_append t)) with h' | h'
  · exact h1 h'
  · exact h2 h'

/-- Keys formed from incomparable prefixes are distinct. -/
theorem keysNeOfPfx {p q : Str} (h1 : ¬ p <+: q) (h2 : ¬ q <+: p) (a b : Str) :
    p ++ a ≠ q ++ b := by
  intro h
  exact notPfxCross h1 h2 b (h ▸ p.prefix_append a)

/-- None of the three namespace prefixes of one exporter is a prefix of a
different one. -/
theorem nsPfxIncomparable (E : Exporter)
    {p q : Str} (hp : p = mainPfx E ∨ p = xmpPfx E ∨ p = exportPfx E)
    (hq : q = mainPfx E ∨ q = xmpPfx E ∨ q = exportPfx E) (hpq : p ≠ q) :
    ¬ p <+: q := by
  have h : ∀ a b : Str,
      (E.cache_key ++ a <+: E.cache_key ++ b) ↔ (a <+: b) := fun a b =>
    List.prefix_append_right_inj _
  rcases hp with hp | hp | hp <;> rcases hq with hq | hq | hq <;>
    subst hp <;> subst hq <;>
    simp only [mainPfx, xmpPfx, exportPfx, h, ne_eq, not_true_eq_false] at hpq ⊢ <;>
    first
      | exact absurd rfl hpq
      | decide

theorem storeLookup_append_of_none {k : Str} {s : Store} (h : storeLookup k s = none)
    (t : Store) : storeLookup k (s ++ t) = storeLookup k t := by
  induction s with
  | nil => simp
  | cons e s ih =>
      rw [storeLookup_cons] at h
      by_cases he : e.1 = k
      · simp [he] at h
      · rw [List.cons_append, storeLookup_cons, if_neg he]
        exact ih (by simpa [he] using h)

theorem storeLookup_append_of_some {k v : Str} {s : Store}
    (h : storeLookup k s = some v) (t : Store) :
    storeLookup k (s ++ t) = some v := by
  induction s with
  | nil => simp [storeLookup_nil] at h
  | cons e s ih =>
      rw [storeLookup_cons] at h
      rw [List.cons_append, storeLookup_cons]
      by_cases he : e.1 = k
      · simpa [he] using h
      · rw [if_neg he] at h ⊢
        exact ih h

theorem storeLookup_map_replace_self {key v : Str} :
    ∀ {s : Store}, s.any (fun e => decide (e.1 = key)) = true →
      storeLookup key (s.map (fun e => if e.1 = key then (key, v) else e)) = some v := by
  intro s
  induction s with
  | nil => simp
  | cons e t ih =>
      intro h
      by_cases he : e.1 = key
      · simp [he, storeLookup_cons]
      · rw [List.map_cons, if_neg he, storeLookup_cons, if_neg he]
        exact ih (by simpa [he] using h)

theorem storeLookup_map_replace_other {key v q : Str} (hq : q ≠ key) (s : Store) :
    storeLookup q (s.map (fun e => if e.1 = key then (key, v) else e)) =
      storeLookup q s := by
  induction s with
  | nil => simp
  | cons e t ih =>
      by_cases he : e.1 = key
      · rw [List.map_cons, if_pos he, storeLookup_cons, storeLookup_cons, he,
          if_neg (fun h => hq h.symm), if_neg (fun h : key = q => hq h.symm)]
        exact ih
      · rw [List.map_cons, if_neg he, storeLookup_cons, storeLookup_cons]
        by_cases hq2 : e.1 = q <;> simp [hq2, ih]

/-- `load` after `save` of the same namespaced key yields the saved value. -/
theorem Cache.load_save_self (p k v : Str) (s : Store) :
    Cache.load p k (Cache.save p k v s) = some v := by
  unfold Cache.save Cache.load
  by_cases h : s.any (fun e => decide (e.1 = p ++ k)) = true
  · rw [if_pos h]
    exact storeLookup_map_replace_self h
  · rw [if_neg h]
    have hn : storeLookup (p ++ k) s = none := by
      rw [storeLookup_eq_none_iff]
      intro e he
      have := List.any_eq_false.1 (Bool.eq_false_iff.2 h) e he
      simpa using this
    rw [storeLookup_append_of_none hn, storeLookup_cons]
    simp

/-- `load` after `save` of a different full key is unchanged. -/
theorem Cache.load_save_other {q k' p k : Str} (h : q ++ k' ≠ p ++ k) (v : Str)
    (s : Store) : Cache.load q k' (Cache.save p k v s) = Cache.load q k' s := by
  unfold Cache.save Cache.load
  by_cases hany : s.any (fun e => decide (e.1 = p ++ k)) = true
  · rw [if_pos hany]
    exact storeLookup_map_replace_other h s
  · rw [if_neg hany]
    by_cases hq : storeLookup (q ++ k') s = none
    · rw [storeLookup_append_of_none hq, storeLookup_cons, if_neg (fun h2 => h h2.symm),
        hq, storeLookup_nil]
    · obtain ⟨v', hv'⟩ := Option.ne_none_iff_exists'.1 hq
      rw [hv']
      exact storeLookup_append_of_some hv' _

theorem storeLookup_filter_of_pass {k : Str} {f : Str × Str → Bool}
    (hf : ∀ e : Str × Str, e.1 = k → f e = true) (s : Store) :
    storeLookup k (s.filter f) = storeLookup k s := by
  induction s with
  | nil => simp
  | cons e t ih =>
      rw [storeLookup_cons]
      by_cases he : e.1 = k
      · rw [List.filter_cons_of_pos (hf e he), storeLookup_cons, if_pos he, if_pos he]
      · by_cases hfe : f e = true
        · rw [List.filter_cons_of_pos hfe, storeLookup_cons, if_neg he, if_neg he, ih]
        · rw [List.filter_cons_of_neg (by simpa using hfe), if_neg he, ih]

theorem storeLookup_filter_none_of_kill {k : Str} {f : Str × Str → Bool}
    (hf : ∀ e : Str × Str, e.1 = k → f e = false) (s : Store) :
    storeLookup k (s.filter f) = none := by
  rw [storeLookup_eq_none_iff]
  intro e he hk
  have h1 := List.of_mem_filter he
  rw [hf e hk] at h1
  exact Bool.false_ne_true h1

/-- `delete` removes the binding of its own namespaced key. -/
theorem Cache.load_delete_self (p k : Str) (s : Store) :
    Cache.load p k (Cache.delete p k s) = none := by
  unfold Cache.load Cache.delete
  exact storeLookup_filter_none_of_kill (fun e hk => by simp [hk]) s

/-- `delete` leaves every other full key unchanged. -/
theorem Cache.load_delete_other {q k' p k : Str} (h : q ++ k' ≠ p ++ k) (s : Store) :
    Cache.load q k' (Cache.delete p k s) = Cache.load q k' s := by
  unfold Cache.load Cache.delete
  exact storeLookup_filter_of_pass (fun e hk => by simp [hk, h]) s

/-- `prune` removes every binding under its own prefix. -/
theorem Cache.load_prune_self (p k : Str) (s : Store) :
    Cache.load p k (Cache.prune p s) = none := by
  unfold Cache.load Cache.prune
  refine storeLookup_filter_none_of_kill (fun e hk => ?_) s
  have : p.isPrefixOf e.1 = true := by
    rw [hk]
    simp [ List.isPrefixOf_iff_prefix]
  simp [this]

/-- `prune` leaves keys under an incomparable prefix unchanged. -/
theorem Cache.load_prune_other {q p : Str} (h1 : ¬ p <+: q) (h2 : ¬ q <+: p)
    (k' : Str) (s : Store) :
    Cache.load q k' (Cache.prune p s) = Cache.load q k' s := by
  unfold Cache.load Cache.prune
  refine storeLookup_filter_of_pass (fun e hk => ?_) s
  have hc : ¬ (p.isPrefixOf (q ++ k') = true) := by
    rw [ List.isPrefixOf_iff_prefix]
    exact notPfxCross h1 h2 k'
  have : p.isPrefixOf e.1 = false := by
    rw [hk]
    exact Bool.eq_false_iff.2 hc
  simp [this]

/-- The selection predicate of `Cache.items`. -/
def itemsPred (pfx : Str) (hasValue : Option Str) (e : Str × Str) : Bool :=
  pfx.isPrefixOf e.1 &&
    (match hasValue with
     | none => true
     | some v => decide (e.2 = v))

theorem Cache.items_eq (pfx : Str) (hv : Option Str) (s : Store) :
    Cache.items pfx hv s =
      (s.filter (itemsPred pfx hv)).map (fun e => (e.1.drop pfx.length, e.2)) := rfl

theorem itemsPred_pfx {pfx : Str} {hv : Option Str} {e : Str × Str}
    (h : itemsPred pfx hv e = true) : pfx.isPrefixOf e.1 = true := by
  unfold itemsPred at h
  exact (Bool.and_eq_true _ _ ▸ h).1

/-- Filtering the store by a predicate that keeps every entry of the `q`
namespace does not change the `q` view's enumeration. -/
theorem Cache.items_filter_frame {q : Str} {hv : Option Str} {f : Str × Str → Bool}
    (hf : ∀ e : Str × Str, q.isPrefixOf e.1 = true → f e = true) (s : Store) :
    Cache.items q hv (s.filter f) = Cache.items q hv s := by
  rw [Cache.items_eq, Cache.items_eq, List.filter_filter]
  refine congrArg (List.map _) (List.filter_congr (fun e _ => ?_))
  by_cases hP : itemsPred q hv e = true
  · simp [hP, hf e (itemsPred_pfx hP)]
  · simp [Bool.eq_false_iff.2 hP]

/-- `delete` on an incomparable namespace does not change the `q` view. -/
theorem Cache.items_delete_frame {p q : Str} (h1 : ¬ p <+: q) (h2 : ¬ q <+: p)
    (hv : Option Str) (k : Str) (s : Store) :
    Cache.items q hv (Cache.delete p k s) = Cache.items q hv s := by
  refine Cache.items_filter_frame (fun e hpre => ?_) s
  obtain ⟨t, ht⟩ := List.isPrefixOf_iff_prefix.1 hpre
  have : e.1 ≠ p ++ k := by
    rw [← ht]
    exact fun hc => keysNeOfPfx h2 h1 t k hc
  simp [this]

/-- `prune` of an incomparable namespace does not change the `q` view. -/
theorem Cache.items_prune_frame {p q : Str} (h1 : ¬ p <+: q) (h2 : ¬ q <+: p)
    (hv : Option Str) (s : Store) :
    Cache.items q hv (Cache.prune p s) = Cache.items q hv s := by
  refine Cache.items_filter_frame (fun e hpre => ?_) s
  obtain ⟨t, ht⟩ := List.isPrefixOf_iff_prefix.1 hpre
  have hc : ¬ (p.isPrefixOf e.1 = true) := by
    rw [ List.isPrefixOf_iff_prefix, ← ht]
    exact notPfxCross h1 h2 t
  simp [Bool.eq_false_iff.2 hc]

/-- `save` into an incomparable namespace does not change the `q` view. -/
theorem Cache.items_save_frame {p q : Str} (h1 : ¬ p <+: q) (h2 : ¬ q <+: p)
    (hv : Option Str) (k v : Str) (s : Store) :
    Cache.items q hv (Cache.save p k v s) = Cache.items q hv s := by
  have hkey : ∀ e : Str × Str, q.isPrefixOf e.1 = true → e.1 ≠ p ++ k := by
    intro e hpre
    obtain ⟨t, ht⟩ := List.isPrefixOf_iff_prefix.1 hpre
    rw [← ht]
    exact fun hc => keysNeOfPfx h2 h1 t k hc
  have hnew : itemsPred q hv (p ++ k, v) = false := by
    refine Bool.eq_false_iff.2 (fun hc => ?_)
    exact hkey (p ++ k, v) (itemsPred_pfx hc) rfl
  unfold Cache.save
  by_cases hany : s.any (fun e => decide (e.1 = p ++ k)) = true
  · rw [if_pos hany, Cache.items_eq, Cache.items_eq]
    rw [List.filter_map]
    have hfc : s.filter (itemsPred q hv ∘
        fun e : Str × Str => if e.1 = p ++ k then (p ++ k, v) else e) =
        s.filter (itemsPred q hv) := by
      refine List.filter_congr (fun e _ => ?_)
      simp only [Function.comp]
      by_cases he : e.1 = p ++ k
      · have hq1 : itemsPred q hv e = false := by
          refine Bool.eq_false_iff.2 (fun hc => ?_)
          exact hkey e (itemsPred_pfx hc) he
        simp [he, hq1, hnew]
      · simp [he]
    rw [hfc]
    have hid : ∀ e ∈ s.filter (itemsPred q hv),
        (if e.1 = p ++ k then (p ++ k, v) else e) = e := by
      intro e he
      have hP := List.of_mem_filter he
      have := hkey e (itemsPred_pfx hP)
      simp [this]
    rw [List.map_congr_left hid]
    simp
  · rw [if_neg hany, Cache.items_eq, Cache.items_eq, List.filter_append]
    simp [hnew]

/-- `update` on an incomparable namespace does not change the `q` view. -/
theorem Cache.items_update_frame {p q : Str} (h1 : ¬ p <+: q) (h2 : ¬ q <+: p)
    (hv : Option Str) (d : List (Str × Str)) (s : Store) :
    Cache.items q hv (Cache.update p d s) = Cache.items q hv s := by
  induction d generalizing s with
  | nil => rfl
  | cons kv d ih =>
      unfold Cache.update
      rw [List.foldl_cons]
      have := ih (Cache.save p kv.1 kv.2 s)
      unfold Cache.update at this
      rw [this, Cache.items_save_frame h1 h2]

/-- `replace` on an incomparable namespace does not change the `q` view. -/
theorem Cache.items_replace_frame {p q : Str} (h1 : ¬ p <+: q) (h2 : ¬ q <+: p)
    (hv : Option Str) (d : List (Str × Str)) (s : Store) :
    Cache.items q hv (Cache.replace p d s) = Cache.items q hv s := by
  unfold Cache.replace
  rw [Cache.items_update_frame h1 h2, Cache.items_prune_frame h1 h2]

/-- After `prune`, the view's own enumeration is empty. -/
theorem Cache.items_prune_self (p : Str) (hv : Option Str) (s : Store) :
    Cache.items p hv (Cache.prune p s) = [] := by
  rw [Cache.items_eq]
  unfold Cache.prune
  rw [List.filter_filter]
  have : s.filter (fun e => itemsPred p hv e && !p.isPrefixOf e.1) = [] := by
    rw [List.filter_eq_nil_iff]
    intro e _
    by_cases hpre : p.isPrefixOf e.1 = true
    · simp [hpre]
    · simp [itemsPred, Bool.eq_false_iff.2 hpre]
  rw [this, List.map_nil]

/-- The six incomparability facts between the three namespace prefixes. -/
theorem nsPfxFacts (E : Exporter) :
    ((¬ mainPfx E <+: xmpPfx E) ∧ (¬ xmpPfx E <+: mainPfx E)) ∧
    ((¬ mainPfx E <+: exportPfx E) ∧ (¬ exportPfx E <+: mainPfx E)) ∧
    ((¬ xmpPfx E <+: exportPfx E) ∧ (¬ exportPfx E <+: xmpPfx E)) := by
  have hne : ∀ a b : Str, a ≠ b → E.cache_key ++ a ≠ E.cache_key ++ b :=
    fun a b h hc => h (List.append_cancel_left hc)
  refine ⟨⟨?_, ?_⟩, ⟨?_, ?_⟩, ⟨?_, ?_⟩⟩ <;>
    refine nsPfxIncomparable E (by simp [mainPfx, xmpPfx, exportPfx])
      (by simp [mainPfx, xmpPfx, exportPfx]) (hne _ _ (by decide))

/-- C3: `Exporter.__init__` on fingerprint mismatch prunes the `xmp` and
`export` namespaces entirely (before any photo is processed) and writes
the new fingerprint into `main`; on a fingerprint match it removes
nothing from the `xmp` and `export` namespaces. -/
theorem exporter_init_cases (E : Exporter) (store : Store) :
    (some E.args_hash ≠ Cache.load (mainPfx E) argsHashKey store →
      Cache.items (xmpPfx E) none ((E.init store).store) = [] ∧
      Cache.items (exportPfx E) none ((E.init store).store) = [] ∧
      Cache.load (mainPfx E) argsHashKey ((E.init store).store) = some E.args_hash) ∧
    (some E.args_hash = Cache.load (mainPfx E) argsHashKey store →
      Cache.items (xmpPfx E) none ((E.init store).store) =
        Cache.items (xmpPfx E) none store ∧
      Cache.items (exportPfx E) none ((E.init store).store) =
        Cache.items (exportPfx E) none store ∧
      Cache.load (mainPfx E) argsHashKey ((E.init store).store) = some E.args_hash) := by
  obtain ⟨⟨hmx1, hmx2⟩, ⟨hme1, hme2⟩, ⟨hxe1, hxe2⟩⟩ := nsPfxFacts E
  constructor
  · intro hdiff
    unfold Exporter.init
    rw [if_pos hdiff]
    refine ⟨?_, ?_, Cache.load_save_self _ _ _ _⟩
    · rw [Cache.items_save_frame hmx1 hmx2, Cache.items_prune_self]
    · rw [Cache.items_save_frame hme1 hme2, Cache.items_prune_frame hxe1 hxe2,
        Cache.items_prune_self]
  · intro heq
    unfold Exporter.init
    rw [if_neg (fun hc => hc heq)]
    exact ⟨Cache.items_save_frame hmx1 hmx2 _ _ _ _,
      Cache.items_save_frame hme1 hme2 _ _ _ _,
      Cache.load_save_self _ _ _ _⟩

/-- C9: the three namespace views with prefixes `{cache_key}:main:`,
`{cache_key}:xmp:` and `{cache_key}:export:` (pairwise not string
prefixes of one another) are isolated: every mutating operation through
one view (`save`, `delete`, `prune`, `update`, `replace`) leaves the
entries carrying a different one of these prefixes unchanged — both
their enumeration through the other view and the lookup of any key of
the other namespace — and one view's enumeration never selects a key of
another namespace (`load`, `items` and `keys` do not mutate the store at
all, so only their read-isolation is stated). -/
theorem cache_namespace_isolation (ck p q : Str)
    (hp : p = ck ++ ":main:".toList ∨ p = ck ++ ":xmp:".toList ∨
      p = ck ++ ":export:".toList)
    (hq : q = ck ++ ":main:".toList ∨ q = ck ++ ":xmp:".toList ∨
      q = ck ++ ":export:".toList)
    (hne : p ≠ q) :
    (∀ (s : Store) (hv : Option Str) (k v : Str),
      Cache.items q hv (Cache.save p k v s) = Cache.items q hv s) ∧
    (∀ (s : Store) (hv : Option Str) (k : Str),
      Cache.items q hv (Cache.delete p k s) = Cache.items q hv s) ∧
    (∀ (s : Store) (hv : Option Str),
      Cache.items q hv (Cache.prune p s) = Cache.items q hv s) ∧
    (∀ (s : Store) (hv : Option Str) (d : List (Str × Str)),
      Cache.items q hv (Cache.update p d s) = Cache.items q hv s) ∧
    (∀ (s : Store) (hv : Option Str) (d : List (Str × Str)),
      Cache.items q hv (Cache.replace p d s) = Cache.items q hv s) ∧
    (∀ (s : Store) (t k v : Str),
      Cache.load q t (Cache.save p k v s) = Cache.load q t s) ∧
    (∀ (s : Store) (t k : Str),
      Cache.load q t (Cache.delete p k s) = Cache.load q t s) ∧
    (∀ (s : Store) (t : Str),
      Cache.load q t (Cache.prune p s) = Cache.load q t s) ∧
    (∀ t : Str, p.isPrefixOf (q ++ t) = false) := by
  have hE : ∀ a : Str, ck ++ a = (Exporter.mk ck []).cache_key ++ a := fun a => rfl
  have hpq : ¬ p <+: q := by
    refine nsPfxIncomparable (Exporter.mk ck []) ?_ ?_ hne <;>
      simpa [mainPfx, xmpPfx, exportPfx] using (by assumption)
  have hqp : ¬ q <+: p := by
    refine nsPfxIncomparable (Exporter.mk ck []) ?_ ?_ (Ne.symm hne) <;>
      simpa [mainPfx, xmpPfx, exportPfx] using (by assumption)
  refine ⟨fun s hv k v => Cache.items_save_frame hpq hqp hv k v s,
    fun s hv k => Cache.items_delete_frame hpq hqp hv k s,
    fun s hv => Cache.items_prune_frame hpq hqp hv s,
    fun s hv d => Cache.items_update_frame hpq hqp hv d s,
    fun s hv d => Cache.items_replace_frame hpq hqp hv d s,
    fun s t k v => Cache.load_save_other (keysNeOfPfx hqp hpq t k) v s,
    fun s t k => Cache.load_delete_other (keysNeOfPfx hqp hpq t k) s,
    fun s t => Cache.load_prune_other hpq hqp t s,
    fun t => ?_⟩
  refine Bool.eq_false_iff.2 (fun hc => ?_)
  exact notPfxCross hpq hqp t ( List.isPrefixOf_iff_prefix.1 hc)

theorem sessAdd_mem (s : List Str) (p q : Str) :
    q ∈ sessAdd s p ↔ q ∈ s ∨ q = p := by
  unfold sessAdd
  by_cases h : p ∈ s
  · rw [if_pos h]
    constructor
    · exact Or.inl
    · rintro (hq | rfl) <;> assumption
  · rw [if_neg h]
    simp [List.mem_cons, or_comm]

/-- C7: a photo whose sidecar file is absent makes `export_cached` fail
with the missing-sidecar error, leaving the store, the session set and
the file system unchanged, performing no renderer invocation. -/
theorem export_cached_missing_sidecar (E : Exporter) (render : Renderer)
    (photo : Photo) (outDir : Str) (st : ExpState) (fs : FS)
    (h : filehash fs photo.xmp_path = none) :
    (E.export_cached render photo outDir st fs).result =
      Except.error ExportError.missingSidecar ∧
    (E.export_cached render photo outDir st fs).st.store = st.store ∧
    (E.export_cached render photo outDir st fs).st.sess = st.sess ∧
    (E.export_cached render photo outDir st fs).fs = fs ∧
    (E.export_cached render photo outDir st fs).renders = 0 := by
  unfold Exporter.export_cached
  rw [h]
  exact ⟨rfl, rfl, rfl, rfl, rfl⟩

/-! Equation lemmas for `export_cached` under each scenario. -/

theorem export_cached_eq_hit {E : Exporter} {render : Renderer} {photo : Photo}
    {outDir : Str} {st : ExpState} {fs : FS} {h p : Str}
    (hsc : filehash fs photo.xmp_path = some h)
    (hcl : Cache.load (exportPfx E) (photoCacheKey photo) st.store = some p)
    (hex : fs.pathExists p = true)
    (hxh : some h = Cache.load (xmpPfx E) (photoCacheKey photo) st.store) :
    E.export_cached render photo outDir st fs =
      ⟨⟨st.store, sessAdd st.sess p⟩, fs, Except.ok p, 0⟩ := by
  unfold Exporter.export_cached
  simp only [hsc, hcl, hex, ← hxh]
  simp

theorem export_cached_eq_miss_none {E : Exporter} {render : Renderer} {photo : Photo}
    {outDir : Str} {st : ExpState} {fs : FS} {h newPath : Str}
    (hsc : filehash fs photo.xmp_path = some h)
    (hcl : Cache.load (exportPfx E) (photoCacheKey photo) st.store = none)
    (hrender : render photo outDir = some newPath) :
    E.export_cached render photo outDir st fs =
      ⟨⟨Cache.save (exportPfx E) (photoCacheKey photo) newPath
          (Cache.save (xmpPfx E) (photoCacheKey photo) h st.store),
        sessAdd st.sess newPath⟩,
       fs.create newPath [], Except.ok newPath, 1⟩ := by
  unfold Exporter.export_cached Exporter.exportPhoto
  simp only [hsc, hcl, hrender]

theorem export_cached_eq_miss_stale {E : Exporter} {render : Renderer} {photo : Photo}
    {outDir : Str} {st : ExpState} {fs : FS} {h p newPath : Str}
    (hsc : filehash fs photo.xmp_path = some h)
    (hcl : Cache.load (exportPfx E) (photoCacheKey photo) st.store = some p)
    (hex : fs.pathExists p = false)
    (hrender : render photo outDir = some newPath) :
    E.export_cached render photo outDir st fs =
      ⟨⟨Cache.save (exportPfx E) (photoCacheKey photo) newPath
          (Cache.save (xmpPfx E) (photoCacheKey photo) h st.store),
        sessAdd st.sess newPath⟩,
       fs.create newPath [], Except.ok newPath, 1⟩ := by
  unfold Exporter.export_cached Exporter.exportPhoto
  simp only [hsc, hcl, hex, hrender]
  simp

theorem export_cached_eq_miss_hash {E : Exporter} {render : Renderer} {photo : Photo}
    {outDir : Str} {st : ExpState} {fs : FS} {h p newPath : Str}
    (hsc : filehash fs photo.xmp_path = some h)
    (hcl : Cache.load (exportPfx E) (photoCacheKey photo) st.store = some p)
    (hex : fs.pathExists p = true)
    (hxh : ¬ some h = Cache.load (xmpPfx E) (photoCacheKey photo) st.store)
    (hrender : render photo outDir = some newPath) :
    E.export_cached render photo outDir st fs =
      ⟨⟨Cache.save (exportPfx E) (photoCacheKey photo) newPath
          (Cache.save (xmpPfx E) (photoCacheKey photo) h st.store),
        sessAdd (sessAdd st.sess p) newPath⟩,
       fs.create newPath [], Except.ok newPath, 1⟩ := by
  unfold Exporter.export_cached Exporter.exportPhoto
  simp only [hsc, hcl, hex, hrender]
  simp [hxh]

theorem export_cached_eq_renderfail_none {E : Exporter} {render : Renderer}
    {photo : Photo} {outDir : Str} {st : ExpState} {fs : FS} {h : Str}
    (hsc : filehash fs photo.xmp_path = some h)
    (hcl : Cache.load (exportPfx E) (photoCacheKey photo) st.store = none)
    (hrender : render photo outDir = none) :
    E.export_cached render photo outDir st fs =
      ⟨st, fs, Except.error ExportError.renderOutputUndetermined, 1⟩ := by
  unfold Exporter.export_cached Exporter.exportPhoto
  simp only [hsc, hcl, hrender]

theorem export_cached_eq_renderfail_stale {E : Exporter} {render : Renderer}
    {photo : Photo} {outDir : Str} {st : ExpState} {fs : FS} {h p : Str}
    (hsc : filehash fs photo.xmp_path = some h)
    (hcl : Cache.load (exportPfx E) (photoCacheKey photo) st.store = some p)
    (hex : fs.pathExists p = false)
    (hrender : render photo outDir = none) :
    E.export_cached render photo outDir st fs =
      ⟨st, fs, Except.error ExportError.renderOutputUndetermined, 1⟩ := by
  unfold Exporter.export_cached Exporter.exportPhoto
  simp only [hsc, hcl, hex, hrender]
  simp

theorem export_cached_eq_renderfail_hash {E : Exporter} {render : Renderer}
    {photo : Photo} {outDir : Str} {st : ExpState} {fs : FS} {h p : Str}
    (hsc : filehash fs photo.xmp_path = some h)
    (hcl : Cache.load (exportPfx E) (photoCacheKey photo) st.store = some p)
    (hex : fs.pathExists p = true)
    (hxh : ¬ some h = Cache.load (xmpPfx E) (photoCacheKey photo) st.store)
    (hrender : render photo outDir = none) :
    E.export_cached render photo outDir st fs =
      ⟨⟨st.store, sessAdd st.sess p⟩, fs,
       Except.error ExportError.renderOutputUndetermined, 1⟩ := by
  unfold Exporter.export_cached Exporter.exportPhoto
  simp only [hsc, hcl, hex, hrender]
  simp [hxh]

/-- C2: with the sidecar readable and the renderer reporting a path,
`export_cached` performs zero renderer invocations and returns the
previously recorded path exactly when the cached path is present, the
file at it exists, and the stored sidecar hash equals the current one;
in every other case it renders exactly once and leaves both the sidecar
hash entry and the output path entry populated with the current values. -/
theorem export_cached_hit_characterization (E : Exporter) (render : Renderer)
    (photo : Photo) (outDir : Str) (st : ExpState) (fs : FS) (h newPath : Str)
    (hsc : filehash fs photo.xmp_path = some h)
    (hrender : render photo outDir = some newPath) :
    ((E.export_cached render photo outDir st fs).renders = 0 ↔
      (∃ p, Cache.load (exportPfx E) (photoCacheKey photo) st.store = some p ∧
        fs.pathExists p = true ∧
        Cache.load (xmpPfx E) (photoCacheKey photo) st.store = some h)) ∧
    (∀ p, Cache.load (exportPfx E) (photoCacheKey photo) st.store = some p →
      fs.pathExists p = true →
      Cache.load (xmpPfx E) (photoCacheKey photo) st.store = some h →
      (E.export_cached render photo outDir st fs).result = Except.ok p) ∧
    (¬ (∃ p, Cache.load (exportPfx E) (photoCacheKey photo) st.store = some p ∧
        fs.pathExists p = true ∧
        Cache.load (xmpPfx E) (photoCacheKey photo) st.store = some h) →
      (E.export_cached render photo outDir st fs).renders = 1 ∧
      Cache.load (xmpPfx E) (photoCacheKey photo)
        (E.export_cached render photo outDir st fs).st.store = some h ∧
      Cache.load (exportPfx E) (photoCacheKey photo)
        (E.export_cached render photo outDir st fs).st.store = some newPath ∧
      (E.export_cached render photo outDir st fs).result = Except.ok newPath) := by
  obtain ⟨-, -, hxe1, hxe2⟩ := nsPfxFacts E
  have hkeyne : xmpPfx E ++ photoCacheKey photo ≠ exportPfx E ++ photoCacheKey photo :=
    keysNeOfPfx hxe1 hxe2 _ _
  have hsaved : ∀ s : Store,
      Cache.load (xmpPfx E) (photoCacheKey photo)
        (Cache.save (exportPfx E) (photoCacheKey photo) newPath
          (Cache.save (xmpPfx E) (photoCacheKey photo) h s)) = some h ∧
      Cache.load (exportPfx E) (photoCacheKey photo)
        (Cache.save (exportPfx E) (photoCacheKey photo) newPath
          (Cache.save (xmpPfx E) (photoCacheKey photo) h s)) = some newPath := by
    intro s
    constructor
    · rw [Cache.load_save_other hkeyne, Cache.load_save_self]
    · rw [Cache.load_save_self]
  rcases hcl : Cache.load (exportPfx E) (photoCacheKey photo) st.store with _ | p
  · have he := export_cached_eq_miss_none hsc hcl hrender
    rw [he]
    refine ⟨?_, ?_, ?_⟩
    · simp
    · intro p hp
      exact Option.noConfusion hp
    · intro _
      exact ⟨rfl, (hsaved st.store).1, (hsaved st.store).2, rfl⟩
  · rcases hex : fs.pathExists p with _ | _
    · have he := export_cached_eq_miss_stale hsc hcl hex hrender
      rw [he]
      refine ⟨?_, ?_, ?_⟩
      · simp only [ECResult.renders]
        constructor
        · intro h0
          exact absurd h0 one_ne_zero
        · rintro ⟨p', hp', hex', -⟩
          cases hp'
          rw [hex] at hex'
          exact absurd hex' Bool.false_ne_true
      · intro p' hp' hex' _
        cases hp'
        rw [hex] at hex'
        exact absurd hex' Bool.false_ne_true
      · intro _
        exact ⟨rfl, (hsaved st.store).1, (hsaved st.store).2, rfl⟩
    · by_cases hxh : some h = Cache.load (xmpPfx E) (photoCacheKey photo) st.store
      · have he := @export_cached_eq_hit E render photo outDir st fs h p hsc hcl hex hxh
        rw [he]
        refine ⟨?_, ?_, ?_⟩
        · simp only [ECResult.renders]
          constructor
          · intro _
            exact ⟨p, rfl, hex, hxh.symm⟩
          · intro _
            trivial
        · intro p' hp' _ _
          cases hp'
          rfl
        · intro hmiss
          exact absurd ⟨p, rfl, hex, hxh.symm⟩ hmiss
      · have he := export_cached_eq_miss_hash hsc hcl hex hxh hrender
        rw [he]
        refine ⟨?_, ?_, ?_⟩
        · simp only [ECResult.renders]
          constructor
          · intro h0
            exact absurd h0 one_ne_zero
          · rintro ⟨p', hp', -, hxh'⟩
            exact absurd hxh'.symm hxh
        · intro p' hp' _ hxh'
          exact absurd hxh'.symm hxh
        · intro _
          exact ⟨rfl, (hsaved st.store).1, (hsaved st.store).2, rfl⟩

/-- C8: when the renderer's output contains no parseable path, the
export operation (`Exporter.export`) fails with
`RenderOutputUndeterminedError`, adding nothing to the session set and
changing neither the store nor the file system; `export_cached` (reaching
the renderer, i.e. not on a cache hit) propagates the error and saves no
`xmp` or `export` entry — its store is unchanged wholesale. -/
theorem render_output_undetermined_failure (E : Exporter) (render : Renderer)
    (photo : Photo) (outDir : Str) (st : ExpState) (fs : FS) (h : Str)
    (hsc : filehash fs photo.xmp_path = some h)
    (hrender : render photo outDir = none)
    (hmiss : ¬ ∃ p, Cache.load (exportPfx E) (photoCacheKey photo) st.store = some p ∧
        fs.pathExists p = true ∧
        Cache.load (xmpPfx E) (photoCacheKey photo) st.store = some h) :
    (E.exportPhoto render photo outDir st fs =
      ⟨st, fs, Except.error ExportError.renderOutputUndetermined, 1⟩) ∧
    ((E.export_cached render photo outDir st fs).result =
      Except.error ExportError.renderOutputUndetermined) ∧
    ((E.export_cached render photo outDir st fs).st.store = st.store) ∧
    ((E.export_cached render photo outDir st fs).fs = fs) ∧
    ((E.export_cached render photo outDir st fs).renders = 1) := by
  have hexp : E.exportPhoto render photo outDir st fs =
      ⟨st, fs, Except.error ExportError.renderOutputUndetermined, 1⟩ := by
    unfold Exporter.exportPhoto
    rw [hrender]
  refine ⟨hexp, ?_⟩
  rcases hcl : Cache.load (exportPfx E) (photoCacheKey photo) st.store with _ | p
  · rw [export_cached_eq_renderfail_none hsc hcl hrender]
    exact ⟨rfl, rfl, rfl, rfl⟩
  · rcases hex : fs.pathExists p with _ | _
    · rw [export_cached_eq_renderfail_stale hsc hcl hex hrender]
      exact ⟨rfl, rfl, rfl, rfl⟩
    · by_cases hxh : some h = Cache.load (xmpPfx E) (photoCacheKey photo) st.store
      · exact absurd ⟨p, hcl, hex, hxh.symm⟩ hmiss
      · rw [export_cached_eq_renderfail_hash hsc hcl hex hxh hrender]
        exact ⟨rfl, rfl, rfl, rfl⟩

/-- C5 (corrected, counterexample): on a cache miss caused by a sidecar
hash mismatch while the cached output file still exists, `export_cached`
adds the previously cached path to the session set even though the call
is not a cache hit, contradicting "only when the call is a cache hit". -/
theorem export_cached_session_claim_false :
    ((Exporter.mk "K".toList "FP".toList).export_cached
        (fun _ _ => some "d/new.tif".toList) (Photo.mk "s/p.cr2".toList 0)
        "d".toList
        (ExpState.mk [("K:export:s/p.cr2:0".toList, "d/old.tif".toList),
          ("K:xmp:s/p.cr2:0".toList, "H1".toList)] [])
        (FS.mk [("s/p.cr2.xmp".toList, "H2".toList),
          ("d/old.tif".toList, "X".toList)])).renders = 1 ∧
    "d/old.tif".toList ∈
      ((Exporter.mk "K".toList "FP".toList).export_cached
        (fun _ _ => some "d/new.tif".toList) (Photo.mk "s/p.cr2".toList 0)
        "d".toList
        (ExpState.mk [("K:export:s/p.cr2:0".toList, "d/old.tif".toList),
          ("K:xmp:s/p.cr2:0".toList, "H1".toList)] [])
        (FS.mk [("s/p.cr2.xmp".toList, "H2".toList),
          ("d/old.tif".toList, "X".toList)])).st.sess ∧
    ((Exporter.mk "K".toList "FP".toList).export_cached
        (fun _ _ => some "d/new.tif".toList) (Photo.mk "s/p.cr2".toList 0)
        "d".toList
        (ExpState.mk [("K:export:s/p.cr2:0".toList, "d/old.tif".toList),
          ("K:xmp:s/p.cr2:0".toList, "H1".toList)] [])
        (FS.mk [("s/p.cr2.xmp".toList, "H2".toList),
          ("d/old.tif".toList, "X".toList)])).result =
      Except.ok "d/new.tif".toList := by
  refine ⟨?_, ?_, ?_⟩ <;> decide

/-- C5 (amended): `export_cached` records the previously cached output
path in the session set whenever that path is present in the `export`
namespace and the file at it exists — also on a sidecar-hash-mismatch
cache miss; only on a miss where no cached path is present, or the cached
file no longer exists, is the freshly produced path the sole addition to
the session set. -/
theorem export_cached_session_amended (E : Exporter) (render : Renderer)
    (photo : Photo) (outDir : Str) (st : ExpState) (fs : FS) (h newPath : Str)
    (hsc : filehash fs photo.xmp_path = some h)
    (hrender : render photo outDir = some newPath) :
    (∀ p, Cache.load (exportPfx E) (photoCacheKey photo) st.store = some p →
      fs.pathExists p = true →
      p ∈ (E.export_cached render photo outDir st fs).st.sess) ∧
    (Cache.load (exportPfx E) (photoCacheKey photo) st.store = none →
      ∀ q, q ∈ (E.export_cached render photo outDir st fs).st.sess ↔
        q ∈ st.sess ∨ q = newPath) ∧
    (∀ p, Cache.load (exportPfx E) (photoCacheKey photo) st.store = some p →
      fs.pathExists p = false →
      ∀ q, q ∈ (E.export_cached render photo outDir st fs).st.sess ↔
        q ∈ st.sess ∨ q = newPath) := by
  refine ⟨?_, ?_, ?_⟩
  · intro p hcl hex
    by_cases hxh : some h = Cache.load (xmpPfx E) (photoCacheKey photo) st.store
    · rw [@export_cached_eq_hit E render photo outDir st fs h p hsc hcl hex hxh]
      exact (sessAdd_mem _ _ _).2 (Or.inr rfl)
    · rw [export_cached_eq_miss_hash hsc hcl hex hxh hrender]
      exact (sessAdd_mem _ _ _).2 (Or.inl ((sessAdd_mem _ _ _).2 (Or.inr rfl)))
  · intro hcl q
    rw [export_cached_eq_miss_none hsc hcl hrender]
    exact sessAdd_mem _ _ _
  · intro p hcl hex q
    rw [export_cached_eq_miss_stale hsc hcl hex hrender]
    exact sessAdd_mem _ _ _

/-! ### Order facts about `kwLe` (for `args_hash` determinism) -/

theorem optValLe_trans {a b c : Option String} (h1 : optValLe a b = true)
    (h2 : optValLe b c = true) : optValLe a c = true := by
  rcases a with _ | x
  · rfl
  · rcases b with _ | y
    · exact absurd h1 Bool.false_ne_true
    · rcases c with _ | z
      · exact absurd h2 Bool.false_ne_true
      · exact decide_eq_true
          (le_trans (of_decide_eq_true h1) (of_decide_eq_true h2))

theorem optValLe_total (a b : Option String) :
    optValLe a b = true ∨ optValLe b a = true := by
  rcases a with _ | x
  · exact Or.inl rfl
  · rcases b with _ | y
    · exact Or.inr rfl
    · rcases le_total x y with h | h
      · exact Or.inl (decide_eq_true h)
      · exact Or.inr (decide_eq_true h)

theorem optValLe_antisymm {a b : Option String} (h1 : optValLe a b = true)
    (h2 : optValLe b a = true) : a = b := by
  rcases a with _ | x
  · rcases b with _ | y
    · rfl
    · exact absurd h2 Bool.false_ne_true
  · rcases b with _ | y
    · exact absurd h1 Bool.false_ne_true
    · exact congrArg some
        (le_antisymm (of_decide_eq_true h1) (of_decide_eq_true h2))

theorem kwLe_trans (a b c : String × Option String) (h1 : kwLe a b)
    (h2 : kwLe b c) : kwLe a c := by
  unfold kwLe at *
  by_cases hab : a.1 = b.1 <;> by_cases hbc : b.1 = c.1
  · rw [if_pos hab] at h1
    rw [if_pos hbc] at h2
    rw [if_pos (hab.trans hbc)]
    exact optValLe_trans h1 h2
  · rw [if_neg hbc] at h2
    rw [if_neg (fun h => hbc (hab.symm.trans h))]
    exact decide_eq_true (hab.symm ▸ of_decide_eq_true h2)
  · rw [if_neg hab] at h1
    rw [if_neg (fun h => hab (h.trans hbc.symm))]
    exact decide_eq_true (hbc ▸ of_decide_eq_true h1)
  · rw [if_neg hab] at h1
    rw [if_neg hbc] at h2
    have hac : a.1 < c.1 :=
      lt_trans (of_decide_eq_true h1) (of_decide_eq_true h2)
    rw [if_neg (fun h : a.1 = c.1 => absurd (h ▸ hac) (lt_irrefl c.1))]
    exact decide_eq_true hac

theorem kwLe_total (a b : String × Option String) : kwLe a b || kwLe b a := by
  unfold kwLe
  by_cases hab : a.1 = b.1
  · rw [if_pos hab, if_pos hab.symm]
    rcases optValLe_total a.2 b.2 with h | h
    · rw [h, Bool.true_or]
    · rw [h, Bool.or_true]
  · rw [if_neg hab, if_neg (fun h => hab h.symm)]
    rcases lt_or_gt_of_ne hab with h | h
    · rw [decide_eq_true h, Bool.true_or]
    · rw [decide_eq_true h, Bool.or_true]

theorem kwLe_antisymm (a b : String × Option String) (h1 : kwLe a b = true)
    (h2 : kwLe b a = true) : a = b := by
  unfold kwLe at *
  by_cases hab : a.1 = b.1
  · rw [if_pos hab] at h1
    rw [if_pos hab.symm] at h2
    exact Prod.ext hab (optValLe_antisymm h1 h2)
  · rw [if_neg hab] at h1
    rw [if_neg (fun h => hab h.symm)] at h2
    exact absurd (lt_trans (of_decide_eq_true h1) (of_decide_eq_true h2))
      (lt_irrefl a.1)

/-- C6: `args_hash` is deterministic — equal positional sequences and
equal keyword mappings (any insertion order, distinct keys) serialize to
the same string, so any digest function of the serialization yields
identical digests; and a positional `None` is serialized as the sentinel
`'__NoneType__'`, hashing identically to that literal string. -/
theorem args_hash_deterministic :
    (∀ (h : String → String) (args : List (Option String))
        (kw1 kw2 : List (String × Option String)),
      kw1.Perm kw2 → (kw1.map Prod.fst).Nodup →
      args_hash h args kw1 = args_hash h args kw2) ∧
    (∀ (h : String → String) (kw : List (String × Option String))
        (pre post : List (Option String)),
      args_hash h (pre ++ none :: post) kw =
        args_hash h (pre ++ some "__NoneType__" :: post) kw) := by
  constructor
  · intro h args kw1 kw2 hperm _
    have hsorteq : kw1.mergeSort kwLe = kw2.mergeSort kwLe := by
      haveI : IsAntisymm (String × Option String) (fun a b => kwLe a b = true) :=
        ⟨kwLe_antisymm⟩
      have hs1 : List.Sorted (fun a b => kwLe a b = true) (kw1.mergeSort kwLe) :=
        List.sorted_mergeSort kwLe_trans kwLe_total kw1
      have hs2 : List.Sorted (fun a b => kwLe a b = true) (kw2.mergeSort kwLe) :=
        List.sorted_mergeSort kwLe_trans kwLe_total kw2
      exact List.eq_of_perm_of_sorted
        (((List.mergeSort_perm kw1 kwLe).trans hperm).trans
          (List.mergeSort_perm kw2 kwLe).symm) hs1 hs2
    unfold args_hash argsJoined
    rw [hsorteq]
  · intro h kw pre post
    unfold args_hash argsJoined
    simp [noneToStr]

/-- Python `str.upper()` on ASCII strings (used to probe letter-case
insensitivity of the extension test). -/
def pyUpper (s : Str) : Str := s.map Char.toUpper

/-- C10: `is_raw_photo_ext` strips surrounding whitespace, leading dots
and letter case before the membership test, so `.CR2`, `cr2` and
` .Cr2 ` all test true while `tif` in any such form tests false; every
raw extension of the source list other than `tif` is accepted in bare,
dotted, and uppercase forms, and a stray `.tif` file below the output
directory (the rendered format, not session-protected) is deleted by
`sync` while a raw-extension file is preserved. -/
theorem is_raw_photo_ext_normalization :
    is_raw_photo_ext ".CR2".toList = true ∧
    is_raw_photo_ext "cr2".toList = true ∧
    is_raw_photo_ext " .Cr2 ".toList = true ∧
    is_raw_photo_ext "tif".toList = false ∧
    is_raw_photo_ext ".tif".toList = false ∧
    is_raw_photo_ext " .Tif ".toList = false ∧
    (rawPhotoExts.all (fun e =>
      decide (e = "tif".toList) ||
        (is_raw_photo_ext e && is_raw_photo_ext ('.' :: e) &&
         is_raw_photo_ext (pyUpper e) &&
         is_raw_photo_ext ('.' :: pyUpper e)))) = true ∧
    ((Exporter.mk "K".toList "F".toList).sync "d".toList (ExpState.mk [] [])
        (FS.mk [("d/a.tif".toList, "X".toList),
          ("d/b.CR2".toList, "Y".toList)])).2.files =
      [("d/b.CR2".toList, "Y".toList)] := by
  refine ⟨?_, ?_, ?_, ?_, ?_, ?_, ?_, ?_⟩ <;> decide

/-! ### Lemmas about `sync` -/

theorem storeLookup_none_of_sublist {s' s : Store} {k : Str} (h : s'.Sublist s)
    (hn : storeLookup k s = none) : storeLookup k s' = none := by
  rw [storeLookup_eq_none_iff] at *
  exact fun e he => hn e (h.subset he)

theorem delStep_sublist (E : Exporter) (s : Store) (k : Str) :
    (delStep E s k).Sublist s := by
  unfold delStep Cache.delete
  exact (List.filter_sublist _).trans (List.filter_sublist _)

theorem delFold_sublist (E : Exporter) :
    ∀ (ks : List Str) (s : Store), (ks.foldl (delStep E) s).Sublist s := by
  intro ks
  induction ks with
  | nil => exact fun s => List.Sublist.refl s
  | cons k ks ih =>
      intro s
      exact (ih (delStep E s k)).trans (delStep_sublist E s k)

theorem syncStep_store_sublist (E : Exporter) (sess : List Str) (acc : Store × FS)
    (p : Str) : (syncStep E sess acc p).1.Sublist acc.1 := by
  unfold syncStep
  by_cases h1 : p ∈ sess
  · rw [if_pos h1]
  · rw [if_neg h1]
    by_cases h2 : is_raw_photo_ext (splitext p).2 = true
    · rw [if_pos h2]
    · rw [if_neg h2]
      exact delFold_sublist E _ acc.1

theorem syncStep_fs_sublist (E : Exporter) (sess : List Str) (acc : Store × FS)
    (p : Str) : (syncStep E sess acc p).2.files.Sublist acc.2.files := by
  unfold syncStep
  by_cases h1 : p ∈ sess
  · rw [if_pos h1]
  · rw [if_neg h1]
    by_cases h2 : is_raw_photo_ext (splitext p).2 = true
    · rw [if_pos h2]
    · rw [if_neg h2]
      exact List.filter_sublist _

theorem syncFold_store_sublist (E : Exporter) (sess : List Str) :
    ∀ (files : List Str) (acc : Store × FS),
      (syncFold E sess files acc).1.Sublist acc.1 := by
  intro files
  induction files with
  | nil => exact fun acc => List.Sublist.refl _
  | cons q files ih =>
      intro acc
      exact (ih (syncStep E sess acc q)).trans (syncStep_store_sublist E sess acc q)

theorem syncFold_fs_sublist (E : Exporter) (sess : List Str) :
    ∀ (files : List Str) (acc : Store × FS),
      (syncFold E sess files acc).2.files.Sublist acc.2.files := by
  intro files
  induction files with
  | nil => exact fun acc => List.Sublist.refl _
  | cons q files ih =>
      intro acc
      exact (ih (syncStep E sess acc q)).trans (syncStep_fs_sublist E sess acc q)

theorem storeLookup_mem {k p : Str} {s : Store} (h : storeLookup k s = some p) :
    (k, p) ∈ s := by
  unfold storeLookup at h
  rcases hf : s.find? (fun e => decide (e.1 = k)) with _ | e
  · rw [hf] at h
    cases h
  · rw [hf] at h
    have hp := List.find?_some hf
    have he1 : e.1 = k := of_decide_eq_true hp
    have hmem := List.mem_of_find?_eq_some hf
    injection h with h2
    have : ((k, p) : Str × Str) = e := by
      rw [← he1, ← h2]
    exact this ▸ hmem

theorem load_mem_keys {pfx k v : Str} {s : Store}
    (h : storeLookup (pfx ++ k) s = some v) : k ∈ Cache.keys pfx (some v) s := by
  have hmem := storeLookup_mem h
  have hstrip : (((pfx ++ k : Str).drop pfx.length, v) : Str × Str) = (k, v) := by
    rw [List.drop_left]
  have hitems : ((k, v) : Str × Str) ∈ Cache.items pfx (some v) s := by
    unfold Cache.items
    refine List.mem_map.2 ⟨(pfx ++ k, v), List.mem_filter.2 ⟨hmem, ?_⟩, hstrip⟩
    have hpre : pfx.isPrefixOf (pfx ++ k) = true :=
      List.isPrefixOf_iff_prefix.2 ⟨k, rfl⟩
    simp [hpre]
  exact List.mem_map.2 ⟨(k, v), hitems, rfl⟩

theorem keys_mem_entry {pfx v k' : Str} {s : Store}
    (h : k' ∈ Cache.keys pfx (some v) s) : (pfx ++ k', v) ∈ s := by
  unfold Cache.keys at h
  obtain ⟨e2, he2, hfst⟩ := List.mem_map.1 h
  unfold Cache.items at he2
  obtain ⟨e, hef, hstrip⟩ := List.mem_map.1 he2
  obtain ⟨ea, eb⟩ := e
  obtain ⟨hin, hpred⟩ := List.mem_filter.1 hef
  have hpre : pfx.isPrefixOf ea = true := (Bool.and_eq_true _ _ ▸ hpred).1
  have hval : eb = v := of_decide_eq_true (Bool.and_eq_true _ _ ▸ hpred).2
  obtain ⟨t, ht⟩ := List.isPrefixOf_iff_prefix.1 hpre
  have hdrop : ea.drop pfx.length = t := by
    rw [← ht, List.drop_left]
  have hk' : t = k' := by
    have h2 := congrArg Prod.fst hstrip
    simp only at h2
    rw [hdrop] at h2
    rw [← hfst, ← h2]
  have : ((pfx ++ k', v) : Str × Str) = (ea, eb) := by
    rw [← ht, hk', hval]
  exact this ▸ hin

theorem nodupKeys_eq {s : Store} (hnd : (s.map Prod.fst).Nodup) {k v w : Str}
    (h1 : (k, v) ∈ s) (h2 : (k, w) ∈ s) : v = w := by
  induction s with
  | nil => cases h1
  | cons e t ih =>
      rw [List.map_cons, List.nodup_cons] at hnd
      rcases List.mem_cons.1 h1 with rfl | h1t <;>
        rcases List.mem_cons.1 h2 with he | h2t
      · injection he with _ h
        exact h.symm
      · exact absurd (List.mem_map.2 ⟨(k, w), h2t, rfl⟩) hnd.1
      · rw [← he] at hnd
        exact absurd (List.mem_map.2 ⟨(k, v), h1t, rfl⟩) hnd.1
      · exact ih hnd.2 h1t h2t

theorem storeLookup_delete_other {q pfx k : Str} (h : q ≠ pfx ++ k) (s : Store) :
    storeLookup q (Cache.delete pfx k s) = storeLookup q s :=
  storeLookup_filter_of_pass (fun e hk => by simp [hk, h]) s

theorem delStep_load_other {E : Exporter} {q k : Str}
    (h1 : q ≠ exportPfx E ++ k) (h2 : q ≠ xmpPfx E ++ k) (s : Store) :
    storeLookup q (delStep E s k) = storeLookup q s := by
  unfold delStep
  rw [storeLookup_delete_other h2, storeLookup_delete_other h1]

theorem delFold_load_other {E : Exporter} {q : Str} :
    ∀ {ks : List Str}, (∀ k ∈ ks, q ≠ exportPfx E ++ k ∧ q ≠ xmpPfx E ++ k) →
      ∀ s, storeLookup q (ks.foldl (delStep E) s) = storeLookup q s := by
  intro ks
  induction ks with
  | nil => exact fun _ _ => rfl
  | cons k ks ih =>
      intro h s
      rw [List.foldl_cons, ih (fun k' hk' => h k' (List.mem_cons_of_mem k hk')),
        delStep_load_other (h k (List.mem_cons_self k ks)).1
          (h k (List.mem_cons_self k ks)).2]

theorem delFold_load_none {E : Exporter} {k : Str} :
    ∀ {ks : List Str}, k ∈ ks → ∀ s,
      storeLookup (exportPfx E ++ k) (ks.foldl (delStep E) s) = none ∧
      storeLookup (xmpPfx E ++ k) (ks.foldl (delStep E) s) = none := by
  intro ks
  induction ks with
  | nil => exact fun h => absurd h (List.not_mem_nil k)
  | cons k' ks ih =>
      intro hk s
      by_cases hkk : k = k'
      · subst hkk
        have hexp : storeLookup (exportPfx E ++ k) (delStep E s k) = none := by
          unfold delStep
          rw [storeLookup_delete_other
            (keysNeOfPfx (nsPfxFacts E).2.2.2 (nsPfxFacts E).2.2.1 k k)]
          exact Cache.load_delete_self (exportPfx E) k s
        have hxmp : storeLookup (xmpPfx E ++ k) (delStep E s k) = none :=
          Cache.load_delete_self (xmpPfx E) k (Cache.delete (exportPfx E) k s)
        rw [List.foldl_cons]
        exact ⟨storeLookup_none_of_sublist (delFold_sublist E ks _) hexp,
          storeLookup_none_of_sublist (delFold_sublist E ks _) hxmp⟩
      · rw [List.foldl_cons]
        exact ih (List.mem_of_ne_of_mem hkk hk) (delStep E s k')

theorem syncStep_skip {E : Exporter} {sess : List Str} {acc : Store × FS} {p : Str}
    (h : p ∈ sess ∨ is_raw_photo_ext (splitext p).2 = true) :
    syncStep E sess acc p = acc := by
  unfold syncStep
  rcases h with h | h
  · rw [if_pos h]
  · by_cases h1 : p ∈ sess
    · rw [if_pos h1]
    · rw [if_neg h1, if_pos h]

theorem syncStep_proc {E : Exporter} {sess : List Str} {acc : Store × FS} {p : Str}
    (hs : p ∉ sess) (hr : is_raw_photo_ext (splitext p).2 = false) :
    syncStep E sess acc p =
      ((Cache.keys (exportPfx E) (some p) acc.1).foldl (delStep E) acc.1,
       acc.2.remove p) := by
  unfold syncStep
  rw [if_neg hs, if_neg (by simp [hr])]

theorem fs_remove_lookup_self (fs : FS) (p : Str) : (fs.remove p).lookup p = none :=
  storeLookup_filter_none_of_kill (fun e hk => by simp [hk]) fs.files

theorem fs_remove_lookup_other {q p : Str} (h : q ≠ p) (fs : FS) :
    (fs.remove p).lookup q = fs.lookup q :=
  storeLookup_filter_of_pass (fun e hk => by simp [hk, h]) fs.files

theorem syncStep_fs_lookup_other {E : Exporter} {sess : List Str} {acc : Store × FS}
    {p q : Str} (h : q ≠ p) :
    (syncStep E sess acc p).2.lookup q = acc.2.lookup q := by
  by_cases h1 : p ∈ sess ∨ is_raw_photo_ext (splitext p).2 = true
  · rw [syncStep_skip h1]
  · push_neg at h1
    rw [syncStep_proc h1.1 (Bool.eq_false_iff.2 h1.2)]
    exact fs_remove_lookup_other h acc.2

theorem syncStep_fs_lookup_self {E : Exporter} {sess : List Str} {acc : Store × FS}
    {p : Str} (hs : p ∉ sess) (hr : is_raw_photo_ext (splitext p).2 = false) :
    (syncStep E sess acc p).2.lookup p = none := by
  rw [syncStep_proc hs hr]
  exact fs_remove_lookup_self acc.2 p

theorem syncStep_load_export_preserved {E : Exporter} {sess : List Str}
    {acc : Store × FS} {q k p : Str} (hnd : (acc.1.map Prod.fst).Nodup)
    (hload : storeLookup (exportPfx E ++ k) acc.1 = some p) (hqp : q ≠ p) :
    storeLookup (exportPfx E ++ k) (syncStep E sess acc q).1 = some p := by
  by_cases h1 : q ∈ sess ∨ is_raw_photo_ext (splitext q).2 = true
  · rw [syncStep_skip h1]
    exact hload
  · push_neg at h1
    rw [syncStep_proc h1.1 (Bool.eq_false_iff.2 h1.2)]
    rw [delFold_load_other ?_ acc.1]
    · exact hload
    · intro k' hk'
      have hent := keys_mem_entry hk'
      constructor
      · intro hc
        have hkk : k = k' := List.append_cancel_left hc
        rw [← hkk] at hent
        exact hqp (nodupKeys_eq hnd hent (storeLookup_mem hload))
      · exact keysNeOfPfx (nsPfxFacts E).2.2.2 (nsPfxFacts E).2.2.1 k k'

theorem syncFold_fs_keep_notmem {E : Exporter} {sess : List Str} {p : Str} :
    ∀ {files : List Str}, p ∉ files → ∀ acc : Store × FS,
      (syncFold E sess files acc).2.lookup p = acc.2.lookup p := by
  intro files
  induction files with
  | nil => exact fun _ _ => rfl
  | cons q files ih =>
      intro hnp acc
      have hqp : p ≠ q := fun h => hnp (h ▸ List.mem_cons_self q files)
      unfold syncFold
      rw [List.foldl_cons]
      have := ih (fun h => hnp (List.mem_cons_of_mem q h)) (syncStep E sess acc q)
      unfold syncFold at this
      rw [this, syncStep_fs_lookup_other hqp]

theorem syncFold_fs_keep {E : Exporter} {sess : List Str} {p : Str}
    (hkeep : p ∈ sess ∨ is_raw_photo_ext (splitext p).2 = true) :
    ∀ (files : List Str) (acc : Store × FS),
      (syncFold E sess files acc).2.lookup p = acc.2.lookup p := by
  intro files
  induction files with
  | nil => exact fun _ => rfl
  | cons q files ih =>
      intro acc
      unfold syncFold
      rw [List.foldl_cons]
      have hf := ih (syncStep E sess acc q)
      unfold syncFold at hf
      rw [hf]
      by_cases hpq : q = p
      · subst hpq
        rw [syncStep_skip hkeep]
      · exact syncStep_fs_lookup_other (fun h => hpq h.symm)

theorem syncFold_fs_removes {E : Exporter} {sess : List Str} {p : Str}
    (hs : p ∉ sess) (hr : is_raw_photo_ext (splitext p).2 = false) :
    ∀ {files : List Str}, p ∈ files → ∀ acc : Store × FS,
      (syncFold E sess files acc).2.lookup p = none := by
  intro files
  induction files with
  | nil => exact fun h => absurd h (List.not_mem_nil p)
  | cons q files ih =>
      intro hp acc
      unfold syncFold
      rw [List.foldl_cons]
      by_cases hpq : p = q
      · subst hpq
        have hstep : (syncStep E sess acc p).2.lookup p = none :=
          syncStep_fs_lookup_self hs hr
        exact storeLookup_none_of_sublist
          (syncFold_fs_sublist E sess files (syncStep E sess acc p)) hstep
      · exact ih (List.mem_of_ne_of_mem hpq hp) (syncStep E sess acc q)

theorem syncFold_cache_removes {E : Exporter} {sess : List Str} {k p : Str}
    (hs : p ∉ sess) (hr : is_raw_photo_ext (splitext p).2 = false) :
    ∀ {files : List Str}, p ∈ files → ∀ acc : Store × FS,
      (acc.1.map Prod.fst).Nodup →
      storeLookup (exportPfx E ++ k) acc.1 = some p →
      storeLookup (exportPfx E ++ k) (syncFold E sess files acc).1 = none ∧
      storeLookup (xmpPfx E ++ k) (syncFold E sess files acc).1 = none := by
  intro files
  induction files with
  | nil => exact fun h => absurd h (List.not_mem_nil p)
  | cons q files ih =>
      intro hp acc hnd hload
      unfold syncFold
      rw [List.foldl_cons]
      by_cases hpq : p = q
      · subst hpq
        rw [show syncStep E sess acc p =
            ((Cache.keys (exportPfx E) (some p) acc.1).foldl (delStep E) acc.1,
             acc.2.remove p) from syncStep_proc hs hr]
        have hkmem : k ∈ Cache.keys (exportPfx E) (some p) acc.1 :=
          load_mem_keys hload
        have hdel := @delFold_load_none E k
          (Cache.keys (exportPfx E) (some p) acc.1) hkmem acc.1
        constructor
        · exact storeLookup_none_of_sublist
            (syncFold_store_sublist E sess files _) hdel.1
        · exact storeLookup_none_of_sublist
            (syncFold_store_sublist E sess files _) hdel.2
      · have hnd' : ((syncStep E sess acc q).1.map Prod.fst).Nodup :=
          hnd.sublist ((syncStep_store_sublist E sess acc q).map Prod.fst)
        have hload' := @syncStep_load_export_preserved E sess acc q k p hnd hload
          (fun h : q = p => hpq h.symm)
        exact ih (List.mem_of_ne_of_mem hpq hp) (syncStep E sess acc q) hnd' hload'

theorem syncFold_id {E : Exporter} {sess : List Str} :
    ∀ {files : List Str},
      (∀ p ∈ files, p ∈ sess ∨ is_raw_photo_ext (splitext p).2 = true) →
      ∀ acc : Store × FS, syncFold E sess files acc = acc := by
  intro files
  induction files with
  | nil => exact fun _ _ => rfl
  | cons q files ih =>
      intro h acc
      unfold syncFold
      rw [List.foldl_cons, syncStep_skip (h q (List.mem_cons_self q files))]
      exact ih (fun p hp => h p (List.mem_cons_of_mem q hp)) acc

theorem fsLookup_ne_none_iff {fs : FS} {p : Str} :
    fs.lookup p ≠ none ↔ p ∈ fs.files.map Prod.fst := by
  constructor
  · intro h
    rcases Option.ne_none_iff_exists'.1 h with ⟨v, hv⟩
    exact List.mem_map.2 ⟨(p, v), storeLookup_mem hv, rfl⟩
  · intro h hn
    obtain ⟨e, he, hfst⟩ := List.mem_map.1 h
    exact storeLookup_eq_none_iff.1 hn e he hfst

/-- C4: `sync(directory)` deletes exactly the files below the directory
whose path is not in the session set and whose extension is not a
raw-photo extension; for each such deleted file every `export` entry
whose stored value equals that path is deleted together with the `xmp`
entry of the same key; session files remain and raw-extension files are
never deleted, their contents untouched.  (The store is assumed to be a
well-formed dictionary: no duplicate keys.) -/
theorem sync_reconciliation (E : Exporter) (dir : Str) (st : ExpState) (fs : FS)
    (hnd : (st.store.map Prod.fst).Nodup) :
    (∀ p, (E.sync dir st fs).2.lookup p = none ↔
      (fs.lookup p = none ∨ (underDir dir p = true ∧ p ∉ st.sess ∧
        is_raw_photo_ext (splitext p).2 = false))) ∧
    (∀ p k, underDir dir p = true → fs.lookup p ≠ none → p ∉ st.sess →
      is_raw_photo_ext (splitext p).2 = false →
      Cache.load (exportPfx E) k st.store = some p →
      Cache.load (exportPfx E) k (E.sync dir st fs).1.store = none ∧
      Cache.load (xmpPfx E) k (E.sync dir st fs).1.store = none) ∧
    (∀ p, p ∈ st.sess ∨ is_raw_photo_ext (splitext p).2 = true →
      (E.sync dir st fs).2.lookup p = fs.lookup p) := by
  have hfs2 : (E.sync dir st fs).2 =
      (syncFold E st.sess ((fs.files.map (fun e => e.1)).filter (underDir dir))
        (st.store, fs)).2 := rfl
  have hst1 : (E.sync dir st fs).1.store =
      (syncFold E st.sess ((fs.files.map (fun e => e.1)).filter (underDir dir))
        (st.store, fs)).1 := rfl
  have hmemfiles : ∀ p : Str,
      p ∈ (fs.files.map (fun e => e.1)).filter (underDir dir) ↔
        (p ∈ fs.files.map Prod.fst ∧ underDir dir p = true) := by
    intro p
    rw [List.mem_filter]
  refine ⟨?_, ?_, ?_⟩
  · intro p
    rw [hfs2]
    constructor
    · intro hnone
      by_cases hfs0 : fs.lookup p = none
      · exact Or.inl hfs0
      · right
        by_cases hdir : underDir dir p = true
        · by_cases hsess : p ∈ st.sess
          · exfalso
            rw [syncFold_fs_keep (Or.inl hsess)] at hnone
            exact hfs0 hnone
          · by_cases hraw : is_raw_photo_ext (splitext p).2 = true
            · exfalso
              rw [syncFold_fs_keep (Or.inr hraw)] at hnone
              exact hfs0 hnone
            · exact ⟨hdir, hsess, Bool.eq_false_iff.2 hraw⟩
        · exfalso
          have hnp : p ∉ (fs.files.map (fun e => e.1)).filter (underDir dir) :=
            fun hmem => hdir ((hmemfiles p).1 hmem).2
          rw [syncFold_fs_keep_notmem hnp] at hnone
          exact hfs0 hnone
    · intro hcond
      rcases hcond with hfs0 | ⟨hdir, hsess, hraw⟩
      · exact storeLookup_none_of_sublist
          (syncFold_fs_sublist E st.sess _ (st.store, fs)) hfs0
      · by_cases hfs0 : fs.lookup p = none
        · exact storeLookup_none_of_sublist
            (syncFold_fs_sublist E st.sess _ (st.store, fs)) hfs0
        · have hp : p ∈ (fs.files.map (fun e => e.1)).filter (underDir dir) :=
            (hmemfiles p).2 ⟨fsLookup_ne_none_iff.1 hfs0, hdir⟩
          exact syncFold_fs_removes hsess hraw hp (st.store, fs)
  · intro p k hdir hfs0 hsess hraw hload
    rw [hst1]
    have hp : p ∈ (fs.files.map (fun e => e.1)).filter (underDir dir) :=
      (hmemfiles p).2 ⟨fsLookup_ne_none_iff.1 hfs0, hdir⟩
    exact syncFold_cache_removes hsess hraw hp (st.store, fs) hnd hload
  · intro p hkeep
    rw [hfs2]
    exact syncFold_fs_keep hkeep _ (st.store, fs)

/-- C1 (corrected, counterexample): export one photo, then call `sync`
twice with no export activity in between.  The first `sync` keeps the
exported file (session membership) but clears the session set, so the
second `sync` deletes the exported file and removes its cache entry —
the second call is not a no-op. -/
theorem sync_twice_deletes_after_export :
    (let E := Exporter.mk "K".toList "FP".toList
     let r1 := E.export_cached (fun _ _ => some "d/out.tif".toList)
       (Photo.mk "s/p.cr2".toList 0) "d".toList (E.init [])
       (FS.mk [("s/p.cr2.xmp".toList, "H1".toList)])
     let s1 := E.sync "d".toList r1.st r1.fs
     let s2 := E.sync "d".toList s1.1 s1.2
     s1.2.lookup "d/out.tif".toList = some [] ∧
     Cache.load (exportPfx E) "s/p.cr2:0".toList s1.1.store =
       some "d/out.tif".toList ∧
     s2.2.lookup "d/out.tif".toList = none ∧
     Cache.load (exportPfx E) "s/p.cr2:0".toList s2.1.store = none) := by
  decide

/-- C1 (amended): when the session set is empty at the first call (no
export activity since construction or since the previous `sync`), calling
`sync` twice consecutively with no export activity in between deletes no
file and removes no cache entry on the second call — the second call
returns the state of the first unchanged.  (In general the session set is
cleared by each `sync`, so a second call deletes precisely the non-raw
files the first call had protected through session membership; see the
counterexample.) -/
theorem sync_twice_noop_of_empty_session (E : Exporter) (dir : Str)
    (st : ExpState) (fs : FS) (hsess : st.sess = []) :
    E.sync dir ((E.sync dir st fs).1) ((E.sync dir st fs).2) =
      E.sync dir st fs := by
  have h1 : (E.sync dir st fs).1 = ExpState.mk
      (syncFold E st.sess ((fs.files.map (fun e => e.1)).filter (underDir dir))
        (st.store, fs)).1 [] := rfl
  have h2 : (E.sync dir st fs).2 =
      (syncFold E st.sess ((fs.files.map (fun e => e.1)).filter (underDir dir))
        (st.store, fs)).2 := rfl
  have hall : ∀ p ∈ (((E.sync dir st fs).2.files.map (fun e => e.1)).filter
      (underDir dir)), p ∈ ([] : List Str) ∨
        is_raw_photo_ext (splitext p).2 = true := by
    intro p hp
    obtain ⟨hmem1, hdir⟩ := List.mem_filter.1 hp
    right
    by_cases hraw : is_raw_photo_ext (splitext p).2 = true
    · exact hraw
    · exfalso
      have hlook1 : (E.sync dir st fs).2.lookup p ≠ none := by
        rw [show (E.sync dir st fs).2.lookup p =
            storeLookup p (E.sync dir st fs).2.files from rfl]
        exact fsLookup_ne_none_iff.2 (by simpa using hmem1)
      have hmemfs : p ∈ fs.files.map Prod.fst := by
        have hsub : (E.sync dir st fs).2.files.Sublist fs.files := by
          rw [h2]
          exact syncFold_fs_sublist E st.sess _ (st.store, fs)
        have := (hsub.map Prod.fst).subset
        exact this (by simpa using hmem1)
      have hp0 : p ∈ (fs.files.map (fun e => e.1)).filter (underDir dir) :=
        List.mem_filter.2 ⟨by simpa using hmemfs, hdir⟩
      have hnone : (E.sync dir st fs).2.lookup p = none := by
        rw [h2]
        exact syncFold_fs_removes (by simp [hsess]) (Bool.eq_false_iff.2 hraw)
          hp0 (st.store, fs)
      exact hlook1 hnone
  have hid := @syncFold_id E []
    (((E.sync dir st fs).2.files.map (fun e => e.1)).filter (underDir dir)) hall
    ((E.sync dir st fs).1.store, (E.sync dir st fs).2)
  have hsess1 : (E.sync dir st fs).1.sess = [] := by
    rw [h1]
  show (ExpState.mk (syncFold E (E.sync dir st fs).1.sess
      (((E.sync dir st fs).2.files.map (fun e => e.1)).filter (underDir dir))
      ((E.sync dir st fs).1.store, (E.sync dir st fs).2)).1 [],
    (syncFold E (E.sync dir st fs).1.sess
      (((E.sync dir st fs).2.files.map (fun e => e.1)).filter (underDir dir))
      ((E.sync dir st fs).1.store, (E.sync dir st fs).2)).2) = E.sync dir st fs
  rw [hsess1, hid]
  have hfix : ExpState.mk (E.sync dir st fs).1.store [] = (E.sync dir st fs).1 := by
    rw [h1]
  exact Prod.ext hfix rfl

/-! ### Witnesses: concrete instantiations of the hypothesis-bearing
claim theorems -/

theorem sync_twice_noop_of_empty_session_witness :
    (Exporter.mk "K".toList "F".toList).sync "d".toList
        (((Exporter.mk "K".toList "F".toList).sync "d".toList
          (ExpState.mk [] []) (FS.mk [("d/a.tif".toList, "X".toList)])).1)
        (((Exporter.mk "K".toList "F".toList).sync "d".toList
          (ExpState.mk [] []) (FS.mk [("d/a.tif".toList, "X".toList)])).2) =
      (Exporter.mk "K".toList "F".toList).sync "d".toList
        (ExpState.mk [] []) (FS.mk [("d/a.tif".toList, "X".toList)]) :=
  sync_twice_noop_of_empty_session (Exporter.mk "K".toList "F".toList)
    "d".toList (ExpState.mk [] []) (FS.mk [("d/a.tif".toList, "X".toList)]) rfl

theorem export_cached_hit_characterization_witness :
    ((Exporter.mk "K".toList "F".toList).export_cached
        (fun _ _ => some "d/out.tif".toList) (Photo.mk "s/p.cr2".toList 0)
        "d".toList (ExpState.mk [] [])
        (FS.mk [("s/p.cr2.xmp".toList, "H1".toList)])).renders = 1 :=
  ((export_cached_hit_characterization (Exporter.mk "K".toList "F".toList)
      (fun _ _ => some "d/out.tif".toList) (Photo.mk "s/p.cr2".toList 0)
      "d".toList (ExpState.mk [] [])
      (FS.mk [("s/p.cr2.xmp".toList, "H1".toList)])
      "H1".toList "d/out.tif".toList (by decide) rfl).2.2
    (fun h => by
      obtain ⟨p, hp, -⟩ := h
      exact Option.noConfusion hp)).1

theorem exporter_init_cases_witness :
    Cache.load (mainPfx (Exporter.mk "K".toList "F".toList)) argsHashKey
      (((Exporter.mk "K".toList "F".toList).init []).store) =
      some "F".toList :=
  ((exporter_init_cases (Exporter.mk "K".toList "F".toList) []).1 (by decide)).2.2

theorem sync_reconciliation_witness :
    ((Exporter.mk "K".toList "F".toList).sync "d".toList (ExpState.mk [] [])
        (FS.mk [("d/a.CR2".toList, "Y".toList)])).2.lookup "d/a.CR2".toList =
      (FS.mk [("d/a.CR2".toList, "Y".toList)]).lookup "d/a.CR2".toList :=
  (sync_reconciliation (Exporter.mk "K".toList "F".toList) "d".toList
      (ExpState.mk [] []) (FS.mk [("d/a.CR2".toList, "Y".toList)])
      (by decide)).2.2 "d/a.CR2".toList (Or.inr (by decide))

theorem export_cached_session_amended_witness :
    ("d/out.tif".toList ∈
      ((Exporter.mk "K".toList "F".toList).export_cached
          (fun _ _ => some "d/out.tif".toList) (Photo.mk "s/p.cr2".toList 0)
          "d".toList (ExpState.mk [] [])
          (FS.mk [("s/p.cr2.xmp".toList, "H1".toList)])).st.sess ↔
      ("d/out.tif".toList ∈ (ExpState.mk ([] : Store) ([] : List Str)).sess ∨
        "d/out.tif".toList = "d/out.tif".toList)) :=
  (export_cached_session_amended (Exporter.mk "K".toList "F".toList)
      (fun _ _ => some "d/out.tif".toList) (Photo.mk "s/p.cr2".toList 0)
      "d".toList (ExpState.mk [] [])
      (FS.mk [("s/p.cr2.xmp".toList, "H1".toList)])
      "H1".toList "d/out.tif".toList (by decide) rfl).2.1 rfl "d/out.tif".toList

theorem args_hash_deterministic_witness :
    args_hash id [some "v", none]
        [("b", none), ("a", some "x")] =
      args_hash id [some "v", none]
        [("a", some "x"), ("b", none)] :=
  args_hash_deterministic.1 id [some "v", none]
    [("b", none), ("a", some "x")] [("a", some "x"), ("b", none)]
    (by decide) (by decide)

theorem export_cached_missing_sidecar_witness :
    ((Exporter.mk "K".toList "F".toList).export_cached
        (fun _ _ => some "d/out.tif".toList) (Photo.mk "s/p.cr2".toList 0)
        "d".toList (ExpState.mk [] []) (FS.mk [])).result =
      Except.error ExportError.missingSidecar :=
  (export_cached_missing_sidecar (Exporter.mk "K".toList "F".toList)
    (fun _ _ => some "d/out.tif".toList) (Photo.mk "s/p.cr2".toList 0)
    "d".toList (ExpState.mk [] []) (FS.mk []) (by decide)).1

theorem render_output_undetermined_failure_witness :
    ((Exporter.mk "K".toList "F".toList).export_cached
        (fun _ _ => none) (Photo.mk "s/p.cr2".toList 0)
        "d".toList (ExpState.mk [] [])
        (FS.mk [("s/p.cr2.xmp".toList, "H1".toList)])).result =
      Except.error ExportError.renderOutputUndetermined :=
  (render_output_undetermined_failure (Exporter.mk "K".toList "F".toList)
      (fun _ _ => none) (Photo.mk "s/p.cr2".toList 0) "d".toList
      (ExpState.mk [] []) (FS.mk [("s/p.cr2.xmp".toList, "H1".toList)])
      "H1".toList (by decide) rfl
      (fun h => by
        obtain ⟨p, hp, -⟩ := h
        exact Option.noConfusion hp)).2.1

theorem cache_namespace_isolation_witness :
    ("K".toList ++ ":main:".toList).isPrefixOf
        (("K".toList ++ ":xmp:".toList) ++ "k".toList) = false :=
  (cache_namespace_isolation "K".toList ("K".toList ++ ":main:".toList)
      ("K".toList ++ ":xmp:".toList) (Or.inl rfl) (Or.inr (Or.inl rfl))
      (by decide)).2.2.2.2.2.2.2.2 "k".toList

end Darktable
